import Mathlib

/-!
Shallow embedding of the promptsandbox.io graph store.

The definitions below are translated from the repository's store code:
`src/store/useStore.ts` (the zustand store: `onNodesChange`, `onEdgesChange`,
`deleteEdges`, `getNodes`, `clearAllNodeResponses`) and
`src/store/updateNode.ts` (the input propagation engine `updateNode`).
State is passed explicitly: every store action becomes a function
`RFState → … → RFState`, mirroring the `get()`/`set()` pattern of the source.
-/

/-- One entry of a node's `inputs` collection: the identifier of the upstream
source node together with the cached value last propagated from it
(spec data model: "named input slots, each holding a cached value sourced
from an upstream node, plus the identifier of the upstream source"). -/
structure InputEntry where
  sourceId : String
  value : String
deriving DecidableEq

/-- Node type tag, `NodeTypesEnum` in `src/nodes/types/NodeTypes.ts`. -/
inductive NodeType where
  | textInput
  | llmPrompt
  | placeholder
deriving DecidableEq

/-- Node payload (`LLMPromptNodeDataType & TextInputNodeDataType`): the
recorded `inputs`, the last computed `response`, and the stored `text`. -/
structure NodeData where
  inputs : List InputEntry
  response : String
  text : String
deriving DecidableEq

/-- A graph node (`CustomNode` from reactflow): id, type tag, position and
type-dependent data. -/
structure Node where
  id : String
  type : NodeType
  position : Int × Int
  data : NodeData
deriving DecidableEq

/-- A graph edge (reactflow `Edge`): id, source and target node ids and the
optional source/target handles. -/
structure Edge where
  id : String
  source : String
  target : String
  sourceHandle : Option String
  targetHandle : Option String
deriving DecidableEq

/-- The slice of the zustand `RFState` the store actions under study read and
write: the node collection, the edge collection and the selected node. -/
structure RFState where
  nodes : List Node
  edges : List Edge
  selectedNode : Option Node
deriving DecidableEq

/-- A reactflow `NodeChange` batch entry: add a node, remove the node with a
given id, or move a node. -/
inductive NodeChange where
  | add (node : Node)
  | remove (id : String)
  | position (id : String) (pos : Int × Int)
deriving DecidableEq

/-- A reactflow `EdgeChange` batch entry: add an edge or remove the edge with
a given id. -/
inductive EdgeChange where
  | add (edge : Edge)
  | remove (id : String)
deriving DecidableEq

/-- Modelled from the spec: one delta of the reactflow library function
`applyNodeChanges` (the library is not part of this repository); per spec
§4.1 it applies add/remove/update-position structural deltas to the node
collection and nothing else. -/
def applyNodeChange (nodes : List Node) (c : NodeChange) : List Node :=
  match c with
  | NodeChange.add n => nodes ++ [n]
  | NodeChange.remove i => nodes.filter (fun n => n.id ≠ i)
  | NodeChange.position i p => nodes.map (fun n => if n.id = i then { n with position := p } else n)

/-- Modelled from the spec: the reactflow library function `applyNodeChanges`,
applying a whole batch of node deltas (spec §4.1). -/
def applyNodeChanges (changes : List NodeChange) (nodes : List Node) : List Node :=
  changes.foldl applyNodeChange nodes

/-- Modelled from the spec: one delta of the reactflow library function
`applyEdgeChanges` (spec §4.1: add/remove structural deltas on edges). -/
def applyEdgeChange (edges : List Edge) (c : EdgeChange) : List Edge :=
  match c with
  | EdgeChange.add e => edges ++ [e]
  | EdgeChange.remove i => edges.filter (fun e => e.id ≠ i)

/-- Modelled from the spec: the reactflow library function `applyEdgeChanges`
applying a whole batch of edge deltas (spec §4.1). -/
def applyEdgeChanges (changes : List EdgeChange) (edges : List Edge) : List Edge :=
  changes.foldl applyEdgeChange edges

/-- Decides whether a node change is a removal of the currently selected node,
the predicate `change.type === 'remove' && change.id === selectedNode?.id`
inside `onNodesChange` in `src/store/useStore.ts`. -/
def isRemoveOfSelected (sel : Option Node) (c : NodeChange) : Bool :=
  match c, sel with
  | NodeChange.remove i, some sn => i == sn.id
  | _, _ => false

/-- The store action `onNodesChange` from `src/store/useStore.ts`: applies the
node changes, and clears `selectedNode` exactly when the batch removes the
currently selected node. -/
def onNodesChange (s : RFState) (changes : List NodeChange) : RFState :=
  let isSelectedNodeDeleted := changes.any (isRemoveOfSelected s.selectedNode)
  { s with
      nodes := applyNodeChanges changes s.nodes
      selectedNode := if isSelectedNodeDeleted then none else s.selectedNode }

/-- The store action `onEdgesChange` from `src/store/useStore.ts`: applies the
edge changes to the edge collection. -/
def onEdgesChange (s : RFState) (changes : List EdgeChange) : RFState :=
  { s with edges := applyEdgeChanges changes s.edges }

/-- The store action `deleteEdges` from `src/store/useStore.ts`: keeps exactly
the edges whose `sourceHandle` differs from the given handle. -/
def deleteEdges (s : RFState) (sourceHandle : String) : RFState :=
  { s with edges := s.edges.filter (fun edge => edge.sourceHandle ≠ some sourceHandle) }

/-- The store action `getNodes` from `src/store/useStore.ts`: returns `[]` for
an empty id list and otherwise filters the node collection by membership of
the node id in the given list. -/
def getNodes (s : RFState) (nodeIds : List String) : List Node :=
  if nodeIds.length = 0 then []
  else s.nodes.filter (fun node => nodeIds.contains node.id)

/-- The store action `clearAllNodeResponses` from `src/store/useStore.ts`:
maps over the nodes setting `data.response` to the empty string. -/
def clearAllNodeResponses (s : RFState) : RFState :=
  { s with nodes := s.nodes.map (fun node => { node with data := { node.data with response := "" } }) }

/-- The output value a node feeds to its successors: a text-input node's
output is its stored text, any other node's output is its last response
(spec §4.6). -/
def nodeOutput (n : Node) : String :=
  match n.type with
  | NodeType.textInput => n.data.text
  | _ => n.data.response

/-- Modelled from the spec: the `Inputs.updateInput(sourceId, nodes)` method of
the node data's inputs object (defined in `src/nodes/types/NodeTypes.ts`,
which is not under src/). Per spec §4.3 it sets the recorded input value for
the slot tied to `sourceId` to the source node's current output value; when no
node with `sourceId` exists in `nodes` there is no source to read, so the
inputs are left unchanged. -/
def updateInput (sourceId : String) (nodes : List Node) (inputs : List InputEntry) : List InputEntry :=
  match nodes.find? (fun n => n.id == sourceId) with
  | some src =>
      inputs.map (fun p => if p.sourceId = sourceId then { p with value := nodeOutput src } else p)
  | none => inputs

/-- The node-mapping step of `updateNode` in `src/store/updateNode.ts`:
`if (node.id === nodeId) node.data = { ...data }`. -/
def replaceData (nodeId : String) (d : NodeData) (n : Node) : Node :=
  if n.id = nodeId then { n with data := d } else n

/-- The target list `targetEdges.map((e) => e.target)` of
`src/store/updateNode.ts`: targets of the edges whose source is `sourceId`. -/
def targetsOf (edges : List Edge) (sourceId : String) : List String :=
  (edges.filter (fun e => e.source == sourceId)).map (fun e => e.target)

/-- The membership test `targetEdges.map((e) => e.target).includes(n.id)` of
`src/store/updateNode.ts`. -/
def isTargetOf (edges : List Edge) (sourceId : String) (n : Node) : Bool :=
  (targetsOf edges sourceId).contains n.id

/-- One step of the propagation loop of `src/store/updateNode.ts`: a direct
successor of `nodeId` gets `inputs.updateInput(nodeId, nodes)` applied, any
other node is untouched. -/
def propagateStep (edges : List Edge) (nodeId : String) (nodes : List Node) (n : Node) : Node :=
  if isTargetOf edges nodeId n then
    { n with data := { n.data with inputs := updateInput nodeId nodes n.data.inputs } }
  else n

/-- The `targetNodes.forEach(... updateInput ...)` loop of
`src/store/updateNode.ts`, as a map over the node collection (the in-place
forEach is value-equivalent because `updateInput` reads only the source
node's output, which no step of the loop changes). -/
def propagate (edges : List Edge) (nodeId : String) (nodes : List Node) : List Node :=
  nodes.map (propagateStep edges nodeId nodes)

/-- The input propagation engine `updateNode` of `src/store/updateNode.ts`:
replaces the data of the node with the given id, updates the recorded inputs
of its direct successors, and sets `selectedNode` to the matched node (or
`null` when no node matched). -/
def updateNode (s : RFState) (nodeId : String) (d : NodeData) : RFState :=
  let nodes1 := s.nodes.map (replaceData nodeId d)
  let nodes2 := propagate s.edges nodeId nodes1
  { s with
      nodes := nodes2
      selectedNode := (nodes2.filter (fun n => n.id == nodeId)).getLast? }

/-- The spec's data-model invariant (§3): every recorded input entry of every
node has a corresponding inbound edge (an edge targeting that node whose
source is the entry's source id). -/
def inputsInvariant (s : RFState) : Bool :=
  s.nodes.all (fun n =>
    n.data.inputs.all (fun p =>
      s.edges.any (fun e => e.target == n.id && e.source == p.sourceId)))

/-- C7: `deleteEdges(sourceHandle)` removes exactly the edges whose source
handle equals `sourceHandle` — an edge is in the result iff it was stored and
its handle differs — and leaves the node collection unchanged. -/
theorem deleteEdges_exact (s : RFState) (h : String) :
    (∀ e : Edge, e ∈ (deleteEdges s h).edges ↔ (e ∈ s.edges ∧ e.sourceHandle ≠ some h)) ∧
    (deleteEdges s h).nodes = s.nodes := by
  constructor
  · intro e
    simp [deleteEdges]
  · rfl

/-- C7 witness: in a two-edge state, `deleteEdges "h1"` keeps the edge with
the other handle and drops the matching one, and the nodes are untouched. -/
theorem deleteEdges_exact_witness :
    (Edge.mk "e2" "a" "b" (some "h2") none ∈
      (deleteEdges (RFState.mk [] [Edge.mk "e1" "a" "b" (some "h1") none,
        Edge.mk "e2" "a" "b" (some "h2") none] none) "h1").edges) ∧
    (Edge.mk "e1" "a" "b" (some "h1") none ∉
      (deleteEdges (RFState.mk [] [Edge.mk "e1" "a" "b" (some "h1") none,
        Edge.mk "e2" "a" "b" (some "h2") none] none) "h1").edges) ∧
    (deleteEdges (RFState.mk [] [Edge.mk "e1" "a" "b" (some "h1") none,
      Edge.mk "e2" "a" "b" (some "h2") none] none) "h1").nodes = [] := by
  refine ⟨?_, ?_, ?_⟩
  · exact ((deleteEdges_exact (RFState.mk [] [Edge.mk "e1" "a" "b" (some "h1") none,
      Edge.mk "e2" "a" "b" (some "h2") none] none) "h1").1 _).mpr (by decide)
  · intro hmem
    have h2 := ((deleteEdges_exact (RFState.mk [] [Edge.mk "e1" "a" "b" (some "h1") none,
      Edge.mk "e2" "a" "b" (some "h2") none] none) "h1").1 _).mp hmem
    exact absurd h2.2 (by decide)
  · exact (deleteEdges_exact (RFState.mk [] [Edge.mk "e1" "a" "b" (some "h1") none,
      Edge.mk "e2" "a" "b" (some "h2") none] none) "h1").2

/-- C8: `clearAllNodeResponses` sets every node's response to the empty string
and changes nothing else: edges are identical, and every node keeps its id,
type, position and inputs (positionally). -/
theorem clearAllNodeResponses_frame (s : RFState) :
    (clearAllNodeResponses s).edges = s.edges ∧
    (clearAllNodeResponses s).nodes.map (fun n => (n.id, n.type, n.position, n.data.inputs, n.data.text)) =
      s.nodes.map (fun n => (n.id, n.type, n.position, n.data.inputs, n.data.text)) ∧
    (∀ n ∈ (clearAllNodeResponses s).nodes, n.data.response = "") := by
  refine ⟨rfl, ?_, ?_⟩
  · simp [clearAllNodeResponses]
  · intro n hn
    simp only [clearAllNodeResponses, List.mem_map] at hn
    obtain ⟨m, _, rfl⟩ := hn
    rfl

/-- Concrete two-node state used to exercise node deletion: node "a" feeds
node "b", and "b" records an input sourced from "a". -/
def cascadeState : RFState :=
  RFState.mk
    [Node.mk "a" NodeType.textInput (0, 0) (NodeData.mk [] "" "hello"),
     Node.mk "b" NodeType.llmPrompt (1, 0) (NodeData.mk [InputEntry.mk "a" "hello"] "" "")]
    [Edge.mk "e1" "a" "b" (some "h") (some "t")]
    none

/-- C1 counterexample: removing node "a" via `onNodesChange` deletes the node
itself, but the edge touching "a" is still present and the neighbor "b" still
records "a" in its inputs — refuting the claimed cascade at this input. -/
theorem onNodesChange_no_cascade_cex :
    ((onNodesChange cascadeState [NodeChange.remove "a"]).nodes.all (fun n => n.id ≠ "a")) = true ∧
    ((onNodesChange cascadeState [NodeChange.remove "a"]).edges.any
      (fun e => e.source == "a" || e.target == "a")) = true ∧
    ((onNodesChange cascadeState [NodeChange.remove "a"]).nodes.any
      (fun n => n.data.inputs.any (fun p => p.sourceId == "a"))) = true := by
  decide

/-- C1 amended: `onNodesChange` with a node-removal change for `nid` removes
exactly the nodes with that id and leaves everything else alone — the
remaining nodes are kept unchanged (inputs included) and the edge collection
is untouched; cascading edge deletion and input pruning are not performed by
`onNodesChange`. -/
theorem onNodesChange_remove_only_node (s : RFState) (nid : String) :
    (onNodesChange s [NodeChange.remove nid]).nodes = s.nodes.filter (fun n => n.id ≠ nid) ∧
    (onNodesChange s [NodeChange.remove nid]).edges = s.edges := by
  constructor
  · simp [onNodesChange, applyNodeChanges, applyNodeChange]
  · rfl

/-- C2 counterexample: `cascadeState` satisfies the inputs invariant, but
after `deleteEdges "h"` removes its only edge, node "b" still records the
input sourced from "a" — the invariant is not preserved. -/
theorem deleteEdges_breaks_invariant_cex :
    inputsInvariant cascadeState = true ∧
    inputsInvariant (deleteEdges cascadeState "h") = false := by
  decide

/-- C2 amended: the edge-removing operations `deleteEdges` and `onEdgesChange`
leave the node collection — and hence every node's recorded inputs — entirely
unchanged: they perform no pruning of stale input entries, so an input entry
whose edge was removed is retained. -/
theorem edge_removal_never_prunes_inputs (s : RFState) (h : String) (cs : List EdgeChange) :
    (deleteEdges s h).nodes = s.nodes ∧ (onEdgesChange s cs).nodes = s.nodes := by
  exact ⟨rfl, rfl⟩

/-- C6: when the batch of node changes contains a removal of the currently
selected node's id, `onNodesChange` clears the selection in the same update;
when it contains no such removal, the selection is unchanged. -/
theorem onNodesChange_selection (s : RFState) (cs : List NodeChange) (sn : Node)
    (hsel : s.selectedNode = some sn) :
    (NodeChange.remove sn.id ∈ cs → (onNodesChange s cs).selectedNode = none) ∧
    (NodeChange.remove sn.id ∉ cs → (onNodesChange s cs).selectedNode = s.selectedNode) := by
  have hpred : ∀ c : NodeChange, isRemoveOfSelected s.selectedNode c = true ↔ c = NodeChange.remove sn.id := by
    intro c
    cases c with
    | add n => simp [isRemoveOfSelected, hsel]
    | remove i => simp [isRemoveOfSelected, hsel]
    | position i p => simp [isRemoveOfSelected, hsel]
  constructor
  · intro hmem
    have hany : cs.any (isRemoveOfSelected s.selectedNode) = true :=
      List.any_eq_true.mpr ⟨NodeChange.remove sn.id, hmem, (hpred _).mpr rfl⟩
    simp [onNodesChange, hany]
  · intro hnmem
    have hany : cs.any (isRemoveOfSelected s.selectedNode) = false := by
      by_contra hne
      have : cs.any (isRemoveOfSelected s.selectedNode) = true := by
        revert hne
        cases cs.any (isRemoveOfSelected s.selectedNode) <;> simp
      obtain ⟨c, hc, hcp⟩ := List.any_eq_true.mp this
      exact hnmem ((hpred c).mp hcp ▸ hc)
    simp [onNodesChange, hany]

/-- C6 witness: in `cascadeState` with "a" selected, a batch removing "a"
clears the selection, and a batch that only moves "a" leaves it selected. -/
theorem onNodesChange_selection_witness :
    (onNodesChange { cascadeState with
        selectedNode := some (Node.mk "a" NodeType.textInput (0, 0) (NodeData.mk [] "" "hello")) }
      [NodeChange.remove "a"]).selectedNode = none ∧
    (onNodesChange { cascadeState with
        selectedNode := some (Node.mk "a" NodeType.textInput (0, 0) (NodeData.mk [] "" "hello")) }
      [NodeChange.position "a" (5, 5)]).selectedNode =
      some (Node.mk "a" NodeType.textInput (0, 0) (NodeData.mk [] "" "hello")) := by
  constructor
  · exact (onNodesChange_selection _ [NodeChange.remove "a"]
      (Node.mk "a" NodeType.textInput (0, 0) (NodeData.mk [] "" "hello")) rfl).1 (by decide)
  · exact (onNodesChange_selection _ [NodeChange.position "a" (5, 5)]
      (Node.mk "a" NodeType.textInput (0, 0) (NodeData.mk [] "" "hello")) rfl).2 (by decide)

/-- C9: `getNodes` returns exactly the stored nodes whose id occurs in the
given list — soundness, completeness, order preservation (the result is a
sublist of the stored node order) and the empty-input case. `getNodes` reads
the state and performs no store write. -/
theorem getNodes_exact (s : RFState) (ids : List String) :
    (∀ n ∈ getNodes s ids, n.id ∈ ids ∧ n ∈ s.nodes) ∧
    (∀ n ∈ s.nodes, n.id ∈ ids → n ∈ getNodes s ids) ∧
    List.Sublist (getNodes s ids) s.nodes ∧
    (ids = [] → getNodes s ids = []) := by
  by_cases hids : ids.length = 0
  · have hnil : ids = [] := List.length_eq_zero.mp hids
    subst hnil
    refine ⟨?_, ?_, ?_, fun _ => rfl⟩
    · intro n hn
      simp [getNodes] at hn
    · intro n _ hmem
      simp at hmem
    · simp [getNodes]
  · refine ⟨?_, ?_, ?_, ?_⟩
    · intro n hn
      simp only [getNodes, if_neg hids] at hn
      have := List.mem_filter.mp hn
      refine ⟨?_, this.1⟩
      have hc := this.2
      simpa [List.contains, List.elem_iff] using hc
    · intro n hmem hid
      simp only [getNodes, if_neg hids]
      refine List.mem_filter.mpr ⟨hmem, ?_⟩
      simpa [List.contains, List.elem_iff] using hid
    · simp only [getNodes, if_neg hids]
      exact List.filter_sublist s.nodes
    · intro hnil
      exact absurd (hnil ▸ rfl) hids

/-- C9 witness: on `cascadeState`, `getNodes ["b"]` contains node "b", and
`getNodes []` is empty. -/
theorem getNodes_exact_witness :
    (Node.mk "b" NodeType.llmPrompt (1, 0) (NodeData.mk [InputEntry.mk "a" "hello"] "" "")
      ∈ getNodes cascadeState ["b"]) ∧
    getNodes cascadeState [] = [] := by
  constructor
  · exact (getNodes_exact cascadeState ["b"]).2.1 _ (by decide) (by decide)
  · exact (getNodes_exact cascadeState []).2.2.2 rfl

/-- Concrete one-node state for the self-update boundary case: node "a" has a
recorded input and there are no edges at all. -/
def selfState : RFState :=
  RFState.mk
    [Node.mk "a" NodeType.llmPrompt (0, 0) (NodeData.mk [InputEntry.mk "x" "old"] "" "t")]
    []
    none

/-- C3 counterexample: with no edges at all — so no node, in particular not
"a" itself, has an edge from "a" — `updateNode "a"` still changes a node's
recorded inputs: "a"'s own inputs are replaced as part of the data
replacement, refuting the claim that every node with no edge from `nodeId`
keeps its inputs. -/
theorem updateNode_changes_own_inputs_cex :
    selfState.edges = [] ∧
    (updateNode selfState "a" (NodeData.mk [] "" "t")).nodes.map (fun n => n.data.inputs) ≠
      selfState.nodes.map (fun n => n.data.inputs) := by
  decide

/-- C3 amended: `updateNode(nodeId, d)` is a single-hop propagation — every
node other than `nodeId` itself that is not the target of an edge whose
source is `nodeId` (in particular every node at distance two or more) is left
completely unchanged, inputs included; only `nodeId` (whose data is replaced)
and its direct successors can change. -/
theorem updateNode_single_hop (s : RFState) (nodeId : String) (d : NodeData) (i : Nat)
    (h : ∃ m, s.nodes[i]? = some m ∧ m.id ≠ nodeId ∧
      ∀ e ∈ s.edges, ¬(e.source = nodeId ∧ e.target = m.id)) :
    (updateNode s nodeId d).nodes[i]? = s.nodes[i]? := by
  obtain ⟨m, hm, hid, hedge⟩ := h
  have hnt : isTargetOf s.edges nodeId m = false := by
    cases htest : isTargetOf s.edges nodeId m with
    | false => rfl
    | true =>
      exfalso
      have hmem : m.id ∈ targetsOf s.edges nodeId := by
        have := htest
        simp only [isTargetOf, List.contains] at this
        exact List.elem_iff.mp this
      simp only [targetsOf, List.mem_map] at hmem
      obtain ⟨e, he, hetgt⟩ := hmem
      have he' := List.mem_filter.mp he
      exact hedge e he'.1 ⟨by simpa using he'.2, hetgt⟩
  have hf : replaceData nodeId d m = m := by
    simp [replaceData, hid]
  simp only [updateNode, propagate]
  rw [List.getElem?_map, List.getElem?_map, hm]
  simp only [Option.map_some']
  rw [hf]
  simp [propagateStep, hnt]

/-- Concrete three-node state: "a" feeds "b", and "c" is unrelated to "a". -/
def hopState : RFState :=
  RFState.mk
    [Node.mk "a" NodeType.textInput (0, 0) (NodeData.mk [] "" "hello"),
     Node.mk "b" NodeType.llmPrompt (1, 0) (NodeData.mk [InputEntry.mk "a" "hello"] "" ""),
     Node.mk "c" NodeType.llmPrompt (2, 0) (NodeData.mk [InputEntry.mk "b" "w"] "" "")]
    [Edge.mk "e1" "a" "b" (some "h") (some "t")]
    none

/-- C3 witness: in `hopState`, node "c" (distance two from "a", no edge from
"a") is untouched by `updateNode "a"`. -/
theorem updateNode_single_hop_witness :
    (∃ m, hopState.nodes[2]? = some m ∧ m.id ≠ "a" ∧
      ∀ e ∈ hopState.edges, ¬(e.source = "a" ∧ e.target = m.id)) ∧
    (updateNode hopState "a" (NodeData.mk [] "" "bye")).nodes[2]? = hopState.nodes[2]? := by
  refine ⟨⟨Node.mk "c" NodeType.llmPrompt (2, 0) (NodeData.mk [InputEntry.mk "b" "w"] "" ""), rfl, by decide, by decide⟩, ?_⟩
  exact updateNode_single_hop hopState "a" (NodeData.mk [] "" "bye") 2
    ⟨Node.mk "c" NodeType.llmPrompt (2, 0) (NodeData.mk [InputEntry.mk "b" "w"] "" ""), rfl, by decide, by decide⟩

/-- C10: when no stored node has the given id, `updateNode` leaves the node
collection (hence every node's data) unchanged and unconditionally sets the
selected node to `null`, clearing any existing selection. -/
theorem updateNode_missing_id (s : RFState) (nodeId : String) (d : NodeData)
    (h : ∀ n ∈ s.nodes, n.id ≠ nodeId) :
    (updateNode s nodeId d).nodes = s.nodes ∧ (updateNode s nodeId d).selectedNode = none := by
  have h1 : s.nodes.map (replaceData nodeId d) = s.nodes := by
    have hcong : ∀ n ∈ s.nodes, replaceData nodeId d n = id n := by
      intro n hn
      simp [replaceData, h n hn]
    rw [List.map_congr_left hcong, List.map_id]
  have hfind : s.nodes.find? (fun n => n.id == nodeId) = none :=
    List.find?_eq_none.mpr (fun n hn => by simp [h n hn])
  have hstep : ∀ n ∈ s.nodes, propagateStep s.edges nodeId s.nodes n = id n := by
    intro n _
    unfold propagateStep updateInput
    rw [hfind]
    split <;> rfl
  have h2 : propagate s.edges nodeId s.nodes = s.nodes := by
    unfold propagate
    rw [List.map_congr_left hstep, List.map_id]
  have hnodes : (updateNode s nodeId d).nodes = s.nodes := by
    simp only [updateNode]
    rw [h1, h2]
  refine ⟨hnodes, ?_⟩
  have hfilter : ((updateNode s nodeId d).nodes.filter (fun n => n.id == nodeId)) = [] := by
    rw [hnodes]
    exact List.filter_eq_nil_iff.mpr (fun n hn => by simp [h n hn])
  simp only [updateNode]
  rw [h1, h2]
  have : (s.nodes.filter (fun n => n.id == nodeId)) = [] := by
    rw [hnodes] at hfilter
    exact hfilter
  rw [this]
  rfl

/-- C10 witness: with node "a" selected and no node named "zzz",
`updateNode "zzz"` keeps all nodes and clears the selection. -/
theorem updateNode_missing_id_witness :
    (∀ n ∈ ({ cascadeState with
        selectedNode := some (Node.mk "a" NodeType.textInput (0, 0) (NodeData.mk [] "" "hello")) } : RFState).nodes,
      n.id ≠ "zzz") ∧
    ((updateNode { cascadeState with
        selectedNode := some (Node.mk "a" NodeType.textInput (0, 0) (NodeData.mk [] "" "hello")) } "zzz"
        (NodeData.mk [] "" "")).nodes =
      ({ cascadeState with
        selectedNode := some (Node.mk "a" NodeType.textInput (0, 0) (NodeData.mk [] "" "hello")) } : RFState).nodes ∧
     (updateNode { cascadeState with
        selectedNode := some (Node.mk "a" NodeType.textInput (0, 0) (NodeData.mk [] "" "hello")) } "zzz"
        (NodeData.mk [] "" "")).selectedNode = none) := by
  refine ⟨by decide, ?_⟩
  exact updateNode_missing_id _ "zzz" (NodeData.mk [] "" "") (by decide)

/-- Helper: the data-replacement step never changes a node's id. -/
lemma replaceData_id_eq (nodeId : String) (d : NodeData) (n : Node) :
    (replaceData nodeId d n).id = n.id := by
  unfold replaceData
  split <;> rfl

/-- Helper: the propagation step never changes a node's id. -/
lemma propagateStep_id_eq (E : List Edge) (nodeId : String) (A : List Node) (n : Node) :
    (propagateStep E nodeId A n).id = n.id := by
  unfold propagateStep
  split <;> rfl

/-- Helper: whether a node is a direct successor depends only on its id. -/
lemma isTargetOf_congr (E : List Edge) (sId : String) {m n : Node} (h : m.id = n.id) :
    isTargetOf E sId m = isTargetOf E sId n := by
  unfold isTargetOf
  rw [h]

/-- Helper: after the data-replacement pass, every node carrying the replaced
id holds exactly the replacement data. -/
lemma mem_map_replaceData_data (nodeId : String) (d : NodeData) {L : List Node} {n : Node}
    (hn : n ∈ L.map (replaceData nodeId d)) (h : n.id = nodeId) : n.data = d := by
  rcases List.mem_map.mp hn with ⟨m, _, rfl⟩
  by_cases hm : m.id = nodeId
  · simp [replaceData, hm]
  · have hrm : replaceData nodeId d m = m := by simp [replaceData, hm]
    rw [hrm] at h ⊢
    exact absurd h hm

/-- Helper: a record update writing back a node's own data is the identity. -/
lemma node_data_eta {n : Node} {d : NodeData} (h : n.data = d) :
    ({ n with data := d } : Node) = n := by
  cases n
  cases h
  rfl

/-- Helper: mapping an id-preserving function that fixes every node carrying
the sought id does not change the result of the id lookup `find?`. -/
lemma find?_id_map_stable (nodeId : String) (f : Node → Node)
    (hid : ∀ n, (f n).id = n.id) (hfix : ∀ n, n.id = nodeId → f n = n) :
    ∀ A : List Node,
      (A.map f).find? (fun n => n.id == nodeId) = A.find? (fun n => n.id == nodeId) := by
  intro A
  induction A with
  | nil => rfl
  | cons a as ih =>
    by_cases ha : a.id = nodeId
    · rw [List.map_cons, List.find?_cons_of_pos _ (by simp [hid, ha]),
        List.find?_cons_of_pos _ (by simp [ha]), hfix a ha]
    · rw [List.map_cons, List.find?_cons_of_neg _ (by simp [hid, ha]),
        List.find?_cons_of_neg _ (by simp [ha])]
      exact ih

/-- Helper: two node lists on which the id lookup agrees induce the same
input update. -/
lemma updateInput_congr_find (nodeId : String) {X Y : List Node}
    (h : X.find? (fun n => n.id == nodeId) = Y.find? (fun n => n.id == nodeId)) :
    updateInput nodeId X = updateInput nodeId Y := by
  funext inputs
  unfold updateInput
  rw [h]

/-- Helper: updating an input slot to the source's current output twice is
the same as doing it once. -/
lemma updateInput_idem (nodeId : String) (A : List Node) (x : List InputEntry) :
    updateInput nodeId A (updateInput nodeId A x) = updateInput nodeId A x := by
  unfold updateInput
  cases hf : A.find? (fun n => n.id == nodeId) with
  | none => rfl
  | some src =>
    show (x.map (fun p => if p.sourceId = nodeId then { p with value := nodeOutput src } else p)).map
        (fun p => if p.sourceId = nodeId then { p with value := nodeOutput src } else p) =
      x.map (fun p => if p.sourceId = nodeId then { p with value := nodeOutput src } else p)
    rw [List.map_map]
    refine List.map_congr_left ?_
    intro p _
    simp only [Function.comp_apply]
    by_cases hp : p.sourceId = nodeId
    · simp [hp]
    · simp [hp]

/-- Helper: the composite action of a second `updateNode` round on a node:
a node carrying the updated id is left as is (its data was wiped back to the
replacement and re-propagated identically), any other node undergoes the
propagation step again. -/
def stepOrFix (E : List Edge) (nodeId : String) (A : List Node) (n : Node) : Node :=
  if n.id = nodeId then n else propagateStep E nodeId A n

/-- Helper: `stepOrFix` preserves ids. -/
lemma stepOrFix_id_eq (E : List Edge) (nodeId : String) (A : List Node) (n : Node) :
    (stepOrFix E nodeId A n).id = n.id := by
  unfold stepOrFix
  split
  · rfl
  · exact propagateStep_id_eq E nodeId A n

/-- Helper: `stepOrFix` fixes every node carrying the updated id. -/
lemma stepOrFix_fix (E : List Edge) (nodeId : String) (A : List Node) (n : Node)
    (h : n.id = nodeId) : stepOrFix E nodeId A n = n := by
  unfold stepOrFix
  rw [if_pos h]

/-- Helper: the propagation step absorbs `stepOrFix` — re-propagating after
the second round's replacement changes nothing. -/
lemma propagateStep_absorb (E : List Edge) (nodeId : String) (A : List Node) (n : Node) :
    propagateStep E nodeId A (stepOrFix E nodeId A n) = propagateStep E nodeId A n := by
  by_cases hid : n.id = nodeId
  · rw [stepOrFix_fix E nodeId A n hid]
  · unfold stepOrFix
    rw [if_neg hid]
    cases ht : isTargetOf E nodeId n with
    | false =>
      have hfix : propagateStep E nodeId A n = n := by simp [propagateStep, ht]
      rw [hfix]
      exact hfix
    | true =>
      have hgn : propagateStep E nodeId A n =
          { n with data := { n.data with inputs := updateInput nodeId A n.data.inputs } } := by
        simp [propagateStep, ht]
      rw [hgn]
      have ht' : isTargetOf E nodeId
          ({ n with data := { n.data with inputs := updateInput nodeId A n.data.inputs } } : Node) = true := by
        have hsame : ({ n with data := { n.data with inputs := updateInput nodeId A n.data.inputs } } : Node).id = n.id := rfl
        rw [isTargetOf_congr E nodeId hsame, ht]
      simp [propagateStep, ht', updateInput_idem]

/-- Helper: list-level idempotence of one full `updateNode` round — replacing
the data again and re-propagating reproduces the node list of the first
round. -/
lemma propagate_replace_idem (E : List Edge) (nodeId : String) (d : NodeData) (L : List Node) :
    propagate E nodeId ((propagate E nodeId (L.map (replaceData nodeId d))).map (replaceData nodeId d)) =
      propagate E nodeId (L.map (replaceData nodeId d)) := by
  set A := L.map (replaceData nodeId d) with hA
  have hPA : ∀ n ∈ A, n.id = nodeId → n.data = d := by
    intro n hn
    rw [hA] at hn
    exact mem_map_replaceData_data nodeId d hn
  have step1 : (propagate E nodeId A).map (replaceData nodeId d) = A.map (stepOrFix E nodeId A) := by
    unfold propagate
    rw [List.map_map]
    refine List.map_congr_left ?_
    intro n hn
    simp only [Function.comp_apply]
    by_cases hid : n.id = nodeId
    · have hdata : n.data = d := hPA n hn hid
      have h1 : replaceData nodeId d (propagateStep E nodeId A n) = { n with data := d } := by
        unfold propagateStep
        split
        · simp [replaceData, hid]
        · simp [replaceData, hid]
      rw [h1, stepOrFix_fix E nodeId A n hid]
      exact node_data_eta hdata
    · have hgid : (propagateStep E nodeId A n).id = n.id := propagateStep_id_eq E nodeId A n
      have h1 : replaceData nodeId d (propagateStep E nodeId A n) = propagateStep E nodeId A n := by
        simp [replaceData, hgid, hid]
      rw [h1]
      unfold stepOrFix
      rw [if_neg hid]
  have hfind := find?_id_map_stable nodeId (stepOrFix E nodeId A)
    (stepOrFix_id_eq E nodeId A) (stepOrFix_fix E nodeId A) A
  have hstepeq : propagateStep E nodeId (A.map (stepOrFix E nodeId A)) = propagateStep E nodeId A := by
    funext n
    unfold propagateStep
    rw [updateInput_congr_find nodeId hfind]
  show propagate E nodeId ((propagate E nodeId A).map (replaceData nodeId d)) = propagate E nodeId A
  rw [step1]
  unfold propagate
  rw [hstepeq, List.map_map]
  refine List.map_congr_left ?_
  intro n _
  simp only [Function.comp_apply]
  exact propagateStep_absorb E nodeId A n

/-- C5: `updateNode` is idempotent — running `updateNode(nodeId, d)` twice
with the same data yields exactly the state produced by running it once
(node collection, successor input state, edges and selection alike). -/
theorem updateNode_idem (s : RFState) (nodeId : String) (d : NodeData) :
    updateNode (updateNode s nodeId d) nodeId d = updateNode s nodeId d := by
  have key := propagate_replace_idem s.edges nodeId d s.nodes
  simp only [updateNode]
  rw [key]

/-- C5 witness: idempotence evaluated on the concrete three-node state. -/
theorem updateNode_idem_witness :
    updateNode (updateNode hopState "a" (NodeData.mk [] "r" "x")) "a" (NodeData.mk [] "r" "x") =
      updateNode hopState "a" (NodeData.mk [] "r" "x") :=
  updateNode_idem hopState "a" (NodeData.mk [] "r" "x")

/-- C8 witness: on the concrete two-node state, clearing responses keeps the
edges and leaves node "b" with an empty response. -/
theorem clearAllNodeResponses_frame_witness :
    (clearAllNodeResponses cascadeState).edges = cascadeState.edges ∧
    (Node.mk "b" NodeType.llmPrompt (1, 0) (NodeData.mk [InputEntry.mk "a" "hello"] "" "")).data.response = "" := by
  refine ⟨(clearAllNodeResponses_frame cascadeState).1, ?_⟩
  exact (clearAllNodeResponses_frame cascadeState).2.2 _ (by decide)
